import Mathlib

/-!
Shallow embedding of the failover-routing and health-ranking engine of the
`llm-manager` repository (files `src/types.ts`, `src/health-checker.ts`,
`src/llm-manager.ts`, `src/providers/*.ts`), together with theorems settling
the specification claims about it.

Conventions of the embedding:
* JavaScript `Map` objects are modelled as lists in insertion order; the
  health table's key set is fixed at construction and never changes, so its
  insertion order is constant.
* `Date` timestamps are modelled as natural numbers (`getTime()` values).
* JavaScript's stable `Array.prototype.sort` with comparator
  `(a, b) => key(a) - key(b)` is modelled by `List.insertionSort` with the
  relation `key a ≤ key b`, which is stable in the same sense (elements the
  comparator ties keep their original relative order).
* Thrown errors are modelled with `Except String` / the `ExecError` type.
-/

namespace LlmMgr

/-- `ProviderType` enum from `src/types.ts`. -/
inductive ProviderType where
  | openai
  | claude
  | gemini
  | azure
deriving DecidableEq, Repr

/-- String value of each `ProviderType` enum member (`'openai'`, `'claude'`,
`'gemini'`, `'azure'`), used in error message templates. -/
def providerName : ProviderType → String
  | .openai => "openai"
  | .claude => "claude"
  | .gemini => "gemini"
  | .azure => "azure"

/-- `ServiceType` enum from `src/types.ts`. -/
inductive ServiceType where
  | text
  | tts
  | stt
deriving DecidableEq, Repr

/-- `HealthStatus` enum from `src/types.ts`. -/
inductive HealthStatus where
  | up
  | down
  | unknown
deriving DecidableEq, Repr

/-- `ProviderHealth` interface from `src/types.ts`; `lastChecked` is the
`Date` as a `getTime()` value, `responseTime` is the optional field. -/
structure ProviderHealth where
  provider : ProviderType
  status : HealthStatus
  lastChecked : Nat
  responseTime : Option Nat
  priority : Nat
deriving DecidableEq, Repr

/-- `HealthCheckResult` interface from `src/types.ts`. -/
structure HealthCheckResult where
  provider : ProviderType
  status : HealthStatus
  lastChecked : Nat
  responseTime : Option Nat := none
  error : Option String := none
deriving DecidableEq, Repr

/-- The health-table state of `HealthChecker` (`src/health-checker.ts`):
the values of the `Map<ProviderType, ProviderHealth>` in insertion order. -/
abbrev HealthTable := List ProviderHealth

/-- `initializeHealthTable` from `src/health-checker.ts` (lines 13-29): every
one of the four providers is inserted with status UNKNOWN, `lastChecked` set
to the construction time, no response time, and default priority 1..4 in
declaration order. -/
def initialHealthTable (now : Nat) : HealthTable :=
  [ { provider := .openai, status := .unknown, lastChecked := now,
      responseTime := none, priority := 1 },
    { provider := .claude, status := .unknown, lastChecked := now,
      responseTime := none, priority := 2 },
    { provider := .gemini, status := .unknown, lastChecked := now,
      responseTime := none, priority := 3 },
    { provider := .azure, status := .unknown, lastChecked := now,
      responseTime := none, priority := 4 } ]

/-- The sort key `(h.responseTime || 0)` used by `reorderByHealth` for the
healthy partition (`src/health-checker.ts` line 54): a missing response time
is coerced to `0` by the `||` operator. -/
def rtKey (h : ProviderHealth) : Nat := h.responseTime.getD 0

/-- Comparator relation of the healthy-partition sort
`(a, b) => (a.responseTime || 0) - (b.responseTime || 0)`: ascending by
`rtKey`. -/
def rtLe (a b : ProviderHealth) : Prop := rtKey a ≤ rtKey b

instance : DecidableRel rtLe := fun _ _ => Nat.decLe _ _

instance : IsTotal ProviderHealth rtLe := ⟨fun _ _ => Nat.le_total _ _⟩

instance : IsTrans ProviderHealth rtLe := ⟨fun _ _ _ => Nat.le_trans⟩

/-- Comparator relation of the unhealthy-partition sort
`(a, b) => b.lastChecked.getTime() - a.lastChecked.getTime()`: descending by
`lastChecked`. -/
def lcDesc (a b : ProviderHealth) : Prop := b.lastChecked ≤ a.lastChecked

instance : DecidableRel lcDesc := fun _ _ => Nat.decLe _ _

instance : IsTotal ProviderHealth lcDesc := ⟨fun _ _ => Nat.le_total _ _⟩

instance : IsTrans ProviderHealth lcDesc := ⟨fun _ _ _ h1 h2 => Nat.le_trans h2 h1⟩

/-- Comparator relation of `getOrderedProviders`'s sort
`(a, b) => a.priority - b.priority`: ascending by `priority`. -/
def prioLe (a b : ProviderHealth) : Prop := a.priority ≤ b.priority

instance : DecidableRel prioLe := fun _ _ => Nat.decLe _ _

instance : IsTotal ProviderHealth prioLe := ⟨fun _ _ => Nat.le_total _ _⟩

instance : IsTrans ProviderHealth prioLe := ⟨fun _ _ _ => Nat.le_trans⟩

/-- Bool form of the partition test `health.status === HealthStatus.UP` in
`reorderByHealth` (`src/health-checker.ts` line 46). -/
def isUp (h : ProviderHealth) : Bool := h.status = HealthStatus.up

/-- The `healthyProviders` array of `reorderByHealth`
(`src/health-checker.ts` lines 42-54): the table values with status UP, in
insertion order, stably sorted ascending by `responseTime || 0`. -/
def healthyBlock (s : HealthTable) : List ProviderHealth :=
  List.insertionSort rtLe (s.filter isUp)

/-- The `unhealthyProviders` array of `reorderByHealth`
(`src/health-checker.ts` lines 42-57): the table values whose status is not
UP, in insertion order, stably sorted descending by `lastChecked`. -/
def unhealthyBlock (s : HealthTable) : List ProviderHealth :=
  List.insertionSort lcDesc (s.filter fun h => !isUp h)

/-- The concatenated array `[...healthyProviders, ...unhealthyProviders]`
over which `reorderByHealth` assigns priorities (`src/health-checker.ts`
line 61). -/
def rankedList (s : HealthTable) : List ProviderHealth :=
  healthyBlock s ++ unhealthyBlock s

/-- `reorderByHealth` from `src/health-checker.ts` (lines 41-65): each table
record's `priority` is overwritten with its 1-based position in
`rankedList`; records are identified by their provider key (the map never
holds two records for one provider), and the map's insertion order is
unchanged by the re-assignment. -/
def reorderByHealth (s : HealthTable) : HealthTable :=
  s.map fun h =>
    { h with priority := ((rankedList s).map (·.provider)).indexOf h.provider + 1 }

/-- The in-place field overwrite of `updateHealth`
(`src/health-checker.ts` lines 32-37): `status`, `lastChecked` and
`responseTime` of the record for `result.provider` are assigned from the
result (assigning an absent `responseTime` clears the field). -/
def applyResult (r : HealthCheckResult) (s : HealthTable) : HealthTable :=
  s.map fun h =>
    if h.provider = r.provider then
      { h with status := r.status, lastChecked := r.lastChecked,
               responseTime := r.responseTime }
    else h

/-- `updateHealth` from `src/health-checker.ts` (lines 31-39): overwrite the
record for `result.provider`, then run `reorderByHealth`. -/
def updateHealth (r : HealthCheckResult) (s : HealthTable) : HealthTable :=
  reorderByHealth (applyResult r s)

/-- `getOrderedProviders` from `src/health-checker.ts` (lines 67-73): the
table values sorted ascending by `priority`, mapped to their provider ids. -/
def getOrderedProviders (s : HealthTable) : List ProviderType :=
  (List.insertionSort prioLe s).map (·.provider)

/-- `getProviderHealth` from `src/health-checker.ts` (lines 75-77). -/
def getProviderHealth (p : ProviderType) (s : HealthTable) : Option ProviderHealth :=
  s.find? fun h => h.provider = p

/-- Sequence of `updateHealth` calls applied left to right to a table. -/
def applyUpdates (rs : List HealthCheckResult) (s : HealthTable) : HealthTable :=
  rs.foldl (fun t r => updateHealth r t) s

/-- Whether `pat` occurs as a contiguous sublist of the second argument;
models JavaScript `String.prototype.includes` on the character lists. -/
def listIsInfix [DecidableEq α] (pat : List α) : List α → Bool
  | [] => pat.isEmpty
  | a :: rest => pat.isPrefixOf (a :: rest) || listIsInfix pat rest

/-- JavaScript `s.includes(pat)` on the strings' character lists. -/
def strContains (s pat : String) : Bool := listIsInfix pat.data s.data

/-- The character list of `modelName.toLowerCase()`. -/
def lowerChars (s : String) : List Char := s.data.map Char.toLower

/-- `detectProviderFromModel` from `src/llm-manager.ts` (lines 55-70):
case-insensitive substring match of known model-name fragments, defaulting
to OpenAI. -/
def detectProviderFromModel (modelName : String) : ProviderType :=
  let m := lowerChars modelName
  if listIsInfix "gpt".data m || listIsInfix "chatgpt".data m then .openai
  else if listIsInfix "claude".data m then .claude
  else if listIsInfix "gemini".data m || listIsInfix "bard".data m then .gemini
  else .openai

/-- `ProviderConfig` interface from `src/types.ts` (one entry of
`LLMManagerConfig`). `other_models` is a `Record<string, string>` whose keys
are cast to `ProviderType`; it is modelled as a list of pairs in key
insertion order. A key that is not a valid provider name can never be
instantiated as a provider (`ProviderFactory.createProvider` throws on it,
so it is absent from the providers map and filtered out of every candidate
list), hence restricting the model to valid keys loses no observable
behaviour. The API-key fields are irrelevant to routing and omitted. -/
structure ProviderConfig where
  default_model : String
  retry : Nat
  retry_delay : Nat
  other_models : List (ProviderType × String) := []
  endpoint : Option String := none
deriving DecidableEq, Repr

/-- Effective retry bound `serviceConfig.retry || 3` from
`src/llm-manager.ts` line 127: a configured value of `0` is falsy, so the
default `3` is used. -/
def effRetries (cfg : ProviderConfig) : Nat := if cfg.retry = 0 then 3 else cfg.retry

/-- Effective inter-attempt delay `serviceConfig.retry_delay || 1000` from
`src/llm-manager.ts` line 128. -/
def effDelay (cfg : ProviderConfig) : Nat :=
  if cfg.retry_delay = 0 then 1000 else cfg.retry_delay

/-- The default provider of a service: `detectProviderFromModel` overridden
to Azure when the configured endpoint contains `openai.azure.com`
(`src/llm-manager.ts` lines 134-139). -/
def defaultProviderOf (cfg : ProviderConfig) : ProviderType :=
  match cfg.endpoint with
  | some e =>
      if strContains e "openai.azure.com" then .azure
      else detectProviderFromModel cfg.default_model
  | none => detectProviderFromModel cfg.default_model

/-- The static candidate list `providerPriority` from `src/llm-manager.ts`
(lines 130-151): the default provider first, then each `other_models` key in
insertion order, skipping keys already present. -/
def providerPriority (cfg : ProviderConfig) : List ProviderType :=
  cfg.other_models.foldl
    (fun acc kv => if acc.contains kv.1 then acc else acc ++ [kv.1])
    [defaultProviderOf cfg]

/-- Comparator relation of the candidate sort in `src/llm-manager.ts`
(lines 159-174). `List.indexOf` returns the list's length for an absent
element, which reproduces every branch of the source comparator: two
candidates present in the health ranking compare by their ranking indices; a
present candidate sorts before an absent one; two absent candidates tie, and
the stable sort keeps their original (static-list) relative order, which is
what the source's position-based fallback branch yields. -/
def candLe (ordered : List ProviderType) (a b : ProviderType) : Prop :=
  ordered.indexOf a ≤ ordered.indexOf b

instance (ordered : List ProviderType) : DecidableRel (candLe ordered) :=
  fun _ _ => Nat.decLe _ _

instance (ordered : List ProviderType) : IsTotal ProviderType (candLe ordered) :=
  ⟨fun _ _ => Nat.le_total _ _⟩

instance (ordered : List ProviderType) : IsTrans ProviderType (candLe ordered) :=
  ⟨fun _ _ _ => Nat.le_trans⟩

/-- The `sortedProviders` list of `executeWithRetry` (`src/llm-manager.ts`
lines 153-174): the static candidate list restricted to instantiated
providers (`availableProviders`), then stably sorted by position in the
health ranking. -/
def sortedCandidates (cfg : ProviderConfig) (provs : List ProviderType)
    (ordered : List ProviderType) : List ProviderType :=
  List.insertionSort (candLe ordered)
    ((providerPriority cfg).filter fun p => provs.contains p)

/-- Truthiness of the member lookup `provider.tts` for each provider built
by `ProviderFactory`: `OpenAIProvider` and `AzureProvider` override `tts`,
while `ClaudeProvider` and `GeminiProvider` inherit the concrete default
implementation declared on `AbstractProvider` (`src/providers/base-provider.ts`
lines 56-58), so the member exists — and is truthy — on all four. -/
def hasTtsMember : ProviderType → Bool
  | .openai => true
  | .claude => true
  | .gemini => true
  | .azure => true

/-- Truthiness of the member lookup `provider.stt`, analogous to
`hasTtsMember` (`src/providers/base-provider.ts` lines 60-62). -/
def hasSttMember : ProviderType → Bool
  | .openai => true
  | .claude => true
  | .gemini => true
  | .azure => true

/-- The three `continue` guards of the candidate loop in
`src/llm-manager.ts` (lines 178-184): candidate absent from the providers
map, or a TTS call on a provider without a `tts` member, or an STT call on a
provider without an `stt` member. -/
def skipCandidate (provs : List ProviderType) (st : ServiceType)
    (p : ProviderType) : Bool :=
  !(provs.contains p) || (st == .tts && !(hasTtsMember p)) ||
    (st == .stt && !(hasSttMember p))

/-- The distinct errors `executeWithRetry` can throw (`src/llm-manager.ts`):
`serviceConfigNotFound key` is `Error('Service configuration not found
for: ...')` (line 123); `opError msg` is the rethrow of the recorded
`lastError` (line 220); `allProvidersFailed` is `Error('All providers
failed')`, thrown at line 220 when `lastError` is still null. -/
inductive ExecError where
  | serviceConfigNotFound (key : String)
  | opError (msg : String)
  | allProvidersFailed
deriving DecidableEq, Repr

/-- The `throw lastError || new Error('All providers failed')` at
`src/llm-manager.ts` line 220, as a function of the final `lastError`. -/
def toExecErr : Option String → ExecError
  | some m => .opError m
  | none => .allProvidersFailed

/-- One invocation of the caller-supplied operation: which provider, which
attempt number within that candidate's retry loop, and the thrown message
when the attempt failed (`none` on success). -/
structure AttemptRecord where
  provider : ProviderType
  attemptNo : Nat
  err : Option String
deriving DecidableEq, Repr

/-- Observable outcome of one `executeWithRetry` call: the returned value or
thrown error, the chronological list of operation invocations, the
`delay(retryDelay)` waits performed (tagged with the candidate being
retried), and the health table after the call. -/
structure ExecOutcome (T : Type) where
  result : Except ExecError T
  attempts : List AttemptRecord
  delays : List (ProviderType × Nat)
  finalHealth : HealthTable

/-- Whether an operation invocation threw. -/
def isErr {T : Type} : Except String T → Bool
  | .error _ => true
  | .ok _ => false

/-- Evolution of the `lastError` variable across a block of attempt records:
every failed attempt overwrites it (`src/llm-manager.ts` line 199). -/
def lastErrUpd (records : List AttemptRecord) (prev : Option String) : Option String :=
  records.foldl (fun acc a => match a.err with | some m => some m | none => acc) prev

/-- The retry loop `for (attempt = 1; attempt <= maxRetries; attempt++)` on
one candidate (`src/llm-manager.ts` lines 186-209), run over the remaining
attempt numbers. On success the result is returned at once; on failure the
error is recorded and, when `attempt < maxRetries`, a `delay(retryDelay)` is
performed before the next attempt. -/
def goAttempts {T : Type} (opp : Nat → Except String T) (p : ProviderType)
    (maxRetries delayMs : Nat) :
    List Nat → Option T × List AttemptRecord × List (ProviderType × Nat)
  | [] => (none, [], [])
  | n :: rest =>
    match opp n with
    | .ok v => (some v, [⟨p, n, none⟩], [])
    | .error msg =>
      let t := goAttempts opp p maxRetries delayMs rest
      (t.1, ⟨p, n, some msg⟩ :: t.2.1,
        (if n < maxRetries then [(p, delayMs)] else []) ++ t.2.2)

/-- The candidate loop of `executeWithRetry` (`src/llm-manager.ts` lines
176-220): for each candidate in order, skip it when a `continue` guard
fires, otherwise run the retry loop; on success return immediately, on
exhaustion mark the candidate down in the health table (status DOWN, fresh
timestamp, no response time, `lastError`'s message as detail) and move on.
When all candidates are exhausted, throw `lastError` or the generic
all-providers-failed error. -/
def goCandidates {T : Type} (provs : List ProviderType) (st : ServiceType)
    (op : ProviderType → Nat → Except String T) (maxRetries delayMs now : Nat) :
    Option String → HealthTable → List ProviderType → ExecOutcome T
  | lastErr, health, [] => ⟨.error (toExecErr lastErr), [], [], health⟩
  | lastErr, health, p :: rest =>
    if skipCandidate provs st p then
      goCandidates provs st op maxRetries delayMs now lastErr health rest
    else
      let t := goAttempts (op p) p maxRetries delayMs (List.range' 1 maxRetries)
      match t.1 with
      | some v => ⟨.ok v, t.2.1, t.2.2, health⟩
      | none =>
        let lastErr2 := lastErrUpd t.2.1 lastErr
        let health2 := updateHealth ⟨p, .down, now, none, lastErr2⟩ health
        let o := goCandidates provs st op maxRetries delayMs now lastErr2 health2 rest
        ⟨o.result, t.2.1 ++ o.attempts, t.2.2 ++ o.delays, o.finalHealth⟩

/-- State of an `LLMManager` instance (`src/llm-manager.ts`): the
configuration object, the keys of the instantiated `providers` map in
insertion order, and the health checker's table. -/
structure ManagerState where
  config : List (String × ProviderConfig)
  providers : List ProviderType
  health : HealthTable
deriving DecidableEq, Repr

/-- The lookup `this.config[serviceKey]`. -/
def lookupConfig (serviceKey : String) (config : List (String × ProviderConfig)) :
    Option ProviderConfig :=
  (config.find? fun kv => kv.1 = serviceKey).map (·.2)

/-- `destroy` from `src/llm-manager.ts` (lines 338-341):
`healthChecker.destroy()` clears the health table and `providers.clear()`
empties the provider map; the configuration object is left in place. -/
def destroyManager (m : ManagerState) : ManagerState :=
  { m with providers := [], health := [] }

/-- `executeWithRetry` from `src/llm-manager.ts` (lines 116-221): look up
the service configuration (throwing when absent), snapshot the health
ranking, build the sorted candidate list, and run the candidate loop with
the effective retry policy. `op p n` is the caller-supplied operation's
outcome on provider `p` at attempt number `n`; `now` is the clock value
used for the down-marks. -/
def executeWithRetry {T : Type} (m : ManagerState) (serviceKey : String)
    (st : ServiceType) (op : ProviderType → Nat → Except String T)
    (now : Nat) : ExecOutcome T :=
  match lookupConfig serviceKey m.config with
  | none => ⟨.error (.serviceConfigNotFound serviceKey), [], [], m.health⟩
  | some cfg =>
    goCandidates m.providers st op (effRetries cfg) (effDelay cfg) now none
      m.health (sortedCandidates cfg m.providers (getOrderedProviders m.health))

/-- The throwing default `tts` implementation on `AbstractProvider`
(`src/providers/base-provider.ts` lines 56-58). -/
def defaultTtsThrow {α : Type} (p : ProviderType) : Except String α :=
  .error ("TTS not implemented for " ++ providerName p)

/-- Outcome of the call `provider.tts(options)` for each provider class:
`OpenAIProvider.tts` and `AzureProvider.tts` perform external requests
(outcome supplied by `ext`); `ClaudeProvider` and `GeminiProvider` have no
override, so the inherited `AbstractProvider.tts` default always throws. -/
def providerTtsCall {α : Type} (ext : ProviderType → Nat → Except String α) :
    ProviderType → Nat → Except String α
  | .openai, n => ext .openai n
  | .azure, n => ext .azure n
  | .claude, _ => defaultTtsThrow .claude
  | .gemini, _ => defaultTtsThrow .gemini

/-- The operation closure passed by `LLMManager.tts` (`src/llm-manager.ts`
lines 268-279): if the provider lacks a `tts` member throw a not-supported
error, otherwise call `provider.tts(options)`. -/
def ttsOperation {α : Type} (ext : ProviderType → Nat → Except String α)
    (p : ProviderType) (n : Nat) : Except String α :=
  if hasTtsMember p then providerTtsCall ext p n
  else .error ("TTS not supported by provider " ++ providerName p)

/-- `LLMManager.tts` (`src/llm-manager.ts` lines 268-279): an
`executeWithRetry` call with service type TTS and the `ttsOperation`
closure. -/
def managerTts {α : Type} (m : ManagerState) (serviceKey : String)
    (ext : ProviderType → Nat → Except String α) (now : Nat) : ExecOutcome α :=
  executeWithRetry m serviceKey .tts (ttsOperation ext) now

instance {ε α : Type} [DecidableEq ε] [DecidableEq α] : DecidableEq (Except ε α) :=
  fun a b =>
    match a, b with
    | .ok x, .ok y =>
      if h : x = y then .isTrue (by rw [h]) else .isFalse fun hh => h (Except.ok.inj hh)
    | .error x, .error y =>
      if h : x = y then .isTrue (by rw [h]) else .isFalse fun hh => h (Except.error.inj hh)
    | .ok _, .error _ => .isFalse fun hh => Except.noConfusion hh
    | .error _, .ok _ => .isFalse fun hh => Except.noConfusion hh

/-! ### Concrete scenarios

Reachable states used to evaluate the code at specific inputs. -/

/-- Health table reached from construction at time 0 by one successful probe
of gemini (response time 120 at time 1). -/
def c3Inner : HealthTable :=
  updateHealth ⟨.gemini, .up, 1, some 120, none⟩ (initialHealthTable 0)

/-- `c3Inner` followed by an up-observation of openai carrying no response
time (at time 2): two healthy providers, one with a recorded response time
and one without. -/
def c3Table : HealthTable :=
  updateHealth ⟨.openai, .up, 2, none, none⟩ c3Inner

/-- Health table reached from construction at time 0 by a down-observation
of openai at time 10. -/
def c4Inner : HealthTable :=
  updateHealth ⟨.openai, .down, 10, none, none⟩ (initialHealthTable 0)

/-- `c4Inner` followed by a down-observation of claude at time 20: two down
providers whose `lastChecked` timestamps differ. -/
def c4Table : HealthTable :=
  updateHealth ⟨.claude, .down, 20, none, none⟩ c4Inner

/-- Service configuration whose default model detects as claude, with openai
as the fallback entry: the TTS scenario of the specification (primary has no
speech-synthesis capability). -/
def ttsCfg : ProviderConfig :=
  { default_model := "claude-3-sonnet-20240229", retry := 2, retry_delay := 7,
    other_models := [(.openai, "tts-1")] }

/-- Manager with the TTS service configured, claude and openai instantiated,
and claude observed healthy (response time 10) so that it ranks first. -/
def ttsManager : ManagerState :=
  { config := [("tts_service", ttsCfg)],
    providers := [.claude, .openai],
    health := updateHealth ⟨.claude, .up, 5, some 10, none⟩ (initialHealthTable 0) }

/-- The TTS call on `ttsManager` where the external openai request would
succeed with audio output. -/
def ttsOutcome : ExecOutcome String :=
  managerTts ttsManager "tts_service" (fun _ _ => .ok "AUDIO") 9

/-- Service configuration with `retry: 0` — a falsy value, so the code
substitutes the default of 3 attempts. -/
def zeroRetryCfg : ProviderConfig :=
  { default_model := "gpt-4", retry := 0, retry_delay := 5 }

/-- Manager with one service (`retry: 0`) and only openai instantiated. -/
def zeroRetryManager : ManagerState :=
  { config := [("chat", zeroRetryCfg)],
    providers := [.openai],
    health := initialHealthTable 0 }

/-- A chat call on `zeroRetryManager` whose operation always throws. -/
def zeroRetryOutcome : ExecOutcome String :=
  executeWithRetry zeroRetryManager "chat" .text (fun _ _ => .error "boom") 3

/-- A chat call issued after `destroy()` on `zeroRetryManager`, with an
operation that would succeed if it were ever invoked. -/
def destroyedOutcome : ExecOutcome String :=
  executeWithRetry (destroyManager zeroRetryManager) "chat" .text (fun _ _ => .ok "hi") 3

/-- Service configuration with primary openai and fallbacks claude then
gemini, two attempts per candidate. -/
def chatCfg : ProviderConfig :=
  { default_model := "gpt-4", retry := 2, retry_delay := 3,
    other_models := [(.claude, "claude-3-haiku"), (.gemini, "gemini-1.5-flash")] }

/-- Manager with the chat service and openai, claude, gemini instantiated. -/
def chatManager : ManagerState :=
  { config := [("chat", chatCfg)],
    providers := [.openai, .claude, .gemini],
    health := initialHealthTable 0 }

/-- Operation where openai always fails, claude succeeds on its first
attempt, and gemini would fail if reached. -/
def chatOp : ProviderType → Nat → Except String String := fun p n =>
  match p, n with
  | .openai, _ => .error "rate limited"
  | .claude, 1 => .ok "OUT"
  | _, _ => .error "other"

/-- The chat call on `chatManager` with `chatOp`. -/
def chatOutcome : ExecOutcome String :=
  executeWithRetry chatManager "chat" .text chatOp 4

/-! ### General list lemmas used by the ranking proofs -/

theorem indexOf_append_left {α : Type} [DecidableEq α] {a : α} {l1 l2 : List α}
    (h : a ∈ l1) : (l1 ++ l2).indexOf a = l1.indexOf a := by
  induction l1 with
  | nil => cases h
  | cons b t ih =>
    by_cases hba : b = a
    · subst hba; simp [List.indexOf_cons_self]
    · rcases List.mem_cons.1 h with h | h
      · exact absurd h.symm hba
      · show (b :: (t ++ l2)).indexOf a = _
        rw [List.indexOf_cons_ne _ hba, List.indexOf_cons_ne _ hba, ih h]

theorem indexOf_append_right {α : Type} [DecidableEq α] {a : α} {l1 l2 : List α}
    (h : a ∉ l1) : (l1 ++ l2).indexOf a = l1.length + l2.indexOf a := by
  induction l1 with
  | nil => simp
  | cons b t ih =>
    have hba : b ≠ a := fun hh => h (hh ▸ List.mem_cons_self b t)
    have hat : a ∉ t := fun hh => h (List.mem_cons_of_mem b hh)
    show (b :: (t ++ l2)).indexOf a = _
    rw [List.indexOf_cons_ne _ hba, ih hat]
    simp [Nat.succ_add]

theorem indexOf_map_of_nodup {α β : Type} [DecidableEq α] [DecidableEq β]
    {f : α → β} {l : List α} (hnd : (l.map f).Nodup) {g : α} (hg : g ∈ l) :
    (l.map f).indexOf (f g) = l.indexOf g := by
  induction l with
  | nil => cases hg
  | cons b t ih =>
    rw [List.map_cons, List.nodup_cons] at hnd
    rcases hnd with ⟨hfb, hndt⟩
    by_cases hbg : b = g
    · subst hbg; simp [List.indexOf_cons_self]
    · rcases List.mem_cons.1 hg with hg1 | hg1
      · exact absurd hg1.symm hbg
      · have hfbg : f b ≠ f g := by
          intro he
          exact hfb (he ▸ List.mem_map_of_mem f hg1)
        simp only [List.map_cons]
        rw [List.indexOf_cons_ne _ hfbg, List.indexOf_cons_ne _ hbg, ih hndt hg1]

theorem map_indexOf_self {α : Type} [DecidableEq α] {l : List α} (h : l.Nodup) :
    l.map (fun a => l.indexOf a) = List.range l.length := by
  induction l with
  | nil => simp
  | cons b t ih =>
    rcases List.nodup_cons.1 h with ⟨hb, ht⟩
    have step : t.map (fun a => (b :: t).indexOf a) = t.map (fun a => t.indexOf a + 1) := by
      apply List.map_congr_left
      intro a ha
      have hba : b ≠ a := fun hh => hb (hh ▸ ha)
      simp [List.indexOf_cons_ne _ hba]
    simp only [List.map_cons, List.indexOf_cons_self, List.length_cons,
      List.range_succ_eq_map, step]
    rw [← ih ht, List.map_map]
    rfl

theorem indexOf_lt_of_pairwise {α : Type} [DecidableEq α] {r : α → α → Prop}
    {l : List α} (hp : l.Pairwise r) (hnd : l.Nodup) {a b : α}
    (ha : a ∈ l) (hb : b ∈ l) (hrefl : ∀ x, r x x) (hab : ¬ r b a) :
    l.indexOf a < l.indexOf b := by
  induction l with
  | nil => cases ha
  | cons c t ih =>
    rcases List.pairwise_cons.1 hp with ⟨hc, hpt⟩
    rcases List.nodup_cons.1 hnd with ⟨hcn, hndt⟩
    have hne : a ≠ b := fun hh => hab (hh ▸ hrefl a)
    by_cases hca : c = a
    · subst hca
      have hbt : b ∈ t := by
        rcases List.mem_cons.1 hb with hb1 | hb1
        · exact absurd hb1 hne.symm
        · exact hb1
      have hcb : c ≠ b := fun hh => hcn (hh ▸ hbt)
      simp [List.indexOf_cons_self, List.indexOf_cons_ne _ hcb]
    · have hat : a ∈ t := by
        rcases List.mem_cons.1 ha with ha1 | ha1
        · exact absurd ha1.symm hca
        · exact ha1
      by_cases hcb : c = b
      · exact absurd (hcb ▸ hc a hat) hab
      · have hbt : b ∈ t := by
          rcases List.mem_cons.1 hb with hb1 | hb1
          · exact absurd hb1.symm hcb
          · exact hb1
        rw [List.indexOf_cons_ne _ hca, List.indexOf_cons_ne _ hcb]
        exact Nat.succ_lt_succ (ih hpt hndt hat hbt)

/-! ### Lemmas about `reorderByHealth` and the health ranking -/

/-- The concatenated ranked array is a permutation of the table values. -/
theorem rankedList_perm (s : HealthTable) : (rankedList s).Perm s := by
  unfold rankedList healthyBlock unhealthyBlock
  exact ((List.perm_insertionSort rtLe _).append
    (List.perm_insertionSort lcDesc _)).trans (List.filter_append_perm _ s)

/-- Re-ranking leaves the table's key sequence unchanged. -/
theorem reorder_map_provider (s : HealthTable) :
    (reorderByHealth s).map (·.provider) = s.map (·.provider) := by
  unfold reorderByHealth
  rw [List.map_map]
  rfl

/-- The field overwrite leaves the table's key sequence unchanged. -/
theorem applyResult_map_provider (r : HealthCheckResult) (s : HealthTable) :
    (applyResult r s).map (·.provider) = s.map (·.provider) := by
  unfold applyResult
  rw [List.map_map]
  apply List.map_congr_left
  intro h _
  by_cases hp : h.provider = r.provider <;> simp [hp]

/-- `updateHealth` leaves the table's key sequence unchanged. -/
theorem updateHealth_map_provider (r : HealthCheckResult) (s : HealthTable) :
    (updateHealth r s).map (·.provider) = s.map (·.provider) := by
  unfold updateHealth
  rw [reorder_map_provider, applyResult_map_provider]

/-- Any sequence of health updates leaves the key sequence unchanged. -/
theorem applyUpdates_map_provider (rs : List HealthCheckResult) (s : HealthTable) :
    (applyUpdates rs s).map (·.provider) = s.map (·.provider) := by
  induction rs generalizing s with
  | nil => rfl
  | cons r t ih =>
    show (applyUpdates t (updateHealth r s)).map (·.provider) = _
    rw [ih, updateHealth_map_provider]

/-- `getOrderedProviders` returns a permutation of the table's keys. -/
theorem getOrderedProviders_perm (s : HealthTable) :
    (getOrderedProviders s).Perm (s.map (·.provider)) := by
  unfold getOrderedProviders
  exact List.Perm.map _ (List.perm_insertionSort prioLe s)

theorem mem_healthyBlock {s : HealthTable} {g : ProviderHealth}
    (hg : g ∈ s) (hup : isUp g = true) : g ∈ healthyBlock s :=
  (List.perm_insertionSort rtLe _).mem_iff.2 (List.mem_filter.2 ⟨hg, hup⟩)

theorem mem_unhealthyBlock {s : HealthTable} {g : ProviderHealth}
    (hg : g ∈ s) (hup : isUp g = false) : g ∈ unhealthyBlock s :=
  (List.perm_insertionSort lcDesc _).mem_iff.2
    (List.mem_filter.2 ⟨hg, by rw [hup]; rfl⟩)

theorem ranked_providers_nodup {s : HealthTable}
    (hw : (s.map (·.provider)).Nodup) : ((rankedList s).map (·.provider)).Nodup :=
  (((rankedList_perm s).map (·.provider)).symm).nodup hw

/-- Two table records with the same provider key are the same record (the
map holds one record per key). -/
theorem provider_inj {s : HealthTable} (hw : (s.map (·.provider)).Nodup)
    {g1 g2 : ProviderHealth} (h1 : g1 ∈ s) (h2 : g2 ∈ s)
    (he : g1.provider = g2.provider) : g1 = g2 :=
  List.inj_on_of_nodup_map hw h1 h2 he

theorem notMem_healthy_providers {s : HealthTable}
    (hw : (s.map (·.provider)).Nodup) {g : ProviderHealth}
    (hg : g ∈ s) (hnup : isUp g = false) :
    g.provider ∉ (healthyBlock s).map (·.provider) := by
  intro hmem
  obtain ⟨g2, hg2H, he⟩ := List.mem_map.1 hmem
  have hg2f := List.mem_filter.1 ((List.perm_insertionSort rtLe _).mem_iff.1 hg2H)
  have := provider_inj hw hg2f.1 hg he
  rw [this] at hg2f
  rw [hg2f.2] at hnup
  cases hnup

/-- Specialisation of `indexOf_map_of_nodup` to provider projections. -/
theorem indexOf_provider_eq {l : List ProviderHealth}
    (hnd : (l.map (·.provider)).Nodup) {g : ProviderHealth} (hg : g ∈ l) :
    (l.map (·.provider)).indexOf g.provider = l.indexOf g :=
  indexOf_map_of_nodup hnd hg

/-- Among two healthy records, a strictly smaller `responseTime || 0` key
means a strictly smaller position in the ranked array. -/
theorem ranked_index_up_up {s : HealthTable} (hw : (s.map (·.provider)).Nodup)
    {g1 g2 : ProviderHealth} (hg1 : g1 ∈ s) (hg2 : g2 ∈ s)
    (h1 : isUp g1 = true) (h2 : isUp g2 = true) (hk : rtKey g1 < rtKey g2) :
    ((rankedList s).map (·.provider)).indexOf g1.provider <
      ((rankedList s).map (·.provider)).indexOf g2.provider := by
  have hcp := ranked_providers_nodup hw
  have hmap : (rankedList s).map (·.provider) =
      (healthyBlock s).map (·.provider) ++ (unhealthyBlock s).map (·.provider) := by
    unfold rankedList
    rw [List.map_append]
  rw [hmap] at hcp ⊢
  have hH1 : g1 ∈ healthyBlock s := mem_healthyBlock hg1 h1
  have hH2 : g2 ∈ healthyBlock s := mem_healthyBlock hg2 h2
  have hm1 : g1.provider ∈ (healthyBlock s).map (·.provider) :=
    List.mem_map.2 ⟨g1, hH1, rfl⟩
  have hm2 : g2.provider ∈ (healthyBlock s).map (·.provider) :=
    List.mem_map.2 ⟨g2, hH2, rfl⟩
  rw [indexOf_append_left hm1, indexOf_append_left hm2]
  have hndH : ((healthyBlock s).map (·.provider)).Nodup := (List.nodup_append.1 hcp).1
  rw [indexOf_provider_eq hndH hH1, indexOf_provider_eq hndH hH2]
  have hp : (healthyBlock s).Pairwise rtLe := List.sorted_insertionSort rtLe _
  exact indexOf_lt_of_pairwise hp (List.Nodup.of_map _ hndH) hH1 hH2
    (fun x => Nat.le_refl _) (not_le.2 hk)

/-- A healthy record always precedes a non-healthy record in the ranked
array. -/
theorem ranked_index_up_nonup {s : HealthTable} (hw : (s.map (·.provider)).Nodup)
    {g1 g2 : ProviderHealth} (hg1 : g1 ∈ s) (hg2 : g2 ∈ s)
    (h1 : isUp g1 = true) (h2 : isUp g2 = false) :
    ((rankedList s).map (·.provider)).indexOf g1.provider <
      ((rankedList s).map (·.provider)).indexOf g2.provider := by
  have hmap : (rankedList s).map (·.provider) =
      (healthyBlock s).map (·.provider) ++ (unhealthyBlock s).map (·.provider) := by
    unfold rankedList
    rw [List.map_append]
  rw [hmap]
  have hH1 : g1 ∈ healthyBlock s := mem_healthyBlock hg1 h1
  have hm1 : g1.provider ∈ (healthyBlock s).map (·.provider) :=
    List.mem_map.2 ⟨g1, hH1, rfl⟩
  have hnm2 := notMem_healthy_providers hw hg2 h2
  rw [indexOf_append_left hm1, indexOf_append_right hnm2]
  exact Nat.lt_of_lt_of_le (List.indexOf_lt_length.2 hm1) (Nat.le_add_right _ _)

/-- Among two non-healthy records, a strictly larger `lastChecked`
timestamp means a strictly smaller position in the ranked array (the sort is
descending). -/
theorem ranked_index_nonup_nonup {s : HealthTable}
    (hw : (s.map (·.provider)).Nodup) {g1 g2 : ProviderHealth}
    (hg1 : g1 ∈ s) (hg2 : g2 ∈ s) (h1 : isUp g1 = false) (h2 : isUp g2 = false)
    (hk : g2.lastChecked < g1.lastChecked) :
    ((rankedList s).map (·.provider)).indexOf g1.provider <
      ((rankedList s).map (·.provider)).indexOf g2.provider := by
  have hcp := ranked_providers_nodup hw
  have hmap : (rankedList s).map (·.provider) =
      (healthyBlock s).map (·.provider) ++ (unhealthyBlock s).map (·.provider) := by
    unfold rankedList
    rw [List.map_append]
  rw [hmap] at hcp ⊢
  have hU1 : g1 ∈ unhealthyBlock s := mem_unhealthyBlock hg1 h1
  have hU2 : g2 ∈ unhealthyBlock s := mem_unhealthyBlock hg2 h2
  have hnm1 := notMem_healthy_providers hw hg1 h1
  have hnm2 := notMem_healthy_providers hw hg2 h2
  rw [indexOf_append_right hnm1, indexOf_append_right hnm2]
  apply Nat.add_lt_add_left
  have hndU : ((unhealthyBlock s).map (·.provider)).Nodup :=
    (List.nodup_append.1 hcp).2.1
  rw [indexOf_provider_eq hndU hU1, indexOf_provider_eq hndU hU2]
  have hp : (unhealthyBlock s).Pairwise lcDesc := List.sorted_insertionSort lcDesc _
  exact indexOf_lt_of_pairwise hp (List.Nodup.of_map _ hndU) hU1 hU2
    (fun x => Nat.le_refl _) (not_le.2 hk)

/-- After a re-rank, a healthy record with a strictly smaller
`responseTime || 0` key has a strictly better (smaller) priority. -/
theorem reorder_up_up_lt {s : HealthTable} (hw : (s.map (·.provider)).Nodup)
    {h1 h2 : ProviderHealth} (h1m : h1 ∈ reorderByHealth s)
    (h2m : h2 ∈ reorderByHealth s) (h1up : h1.status = HealthStatus.up)
    (h2up : h2.status = HealthStatus.up) (hk : rtKey h1 < rtKey h2) :
    h1.priority < h2.priority := by
  obtain ⟨g1, hg1, rfl⟩ := List.mem_map.1 h1m
  obtain ⟨g2, hg2, rfl⟩ := List.mem_map.1 h2m
  have hb1 : isUp g1 = true := by
    unfold isUp
    simp only [decide_eq_true_eq]
    exact h1up
  have hb2 : isUp g2 = true := by
    unfold isUp
    simp only [decide_eq_true_eq]
    exact h2up
  exact Nat.add_lt_add_right (ranked_index_up_up hw hg1 hg2 hb1 hb2 hk) 1

/-- After a re-rank, every healthy record has a strictly better (smaller)
priority than every non-healthy record. -/
theorem reorder_up_nonup_lt {s : HealthTable} (hw : (s.map (·.provider)).Nodup)
    {h1 h2 : ProviderHealth} (h1m : h1 ∈ reorderByHealth s)
    (h2m : h2 ∈ reorderByHealth s) (h1up : h1.status = HealthStatus.up)
    (h2nup : h2.status ≠ HealthStatus.up) : h1.priority < h2.priority := by
  obtain ⟨g1, hg1, rfl⟩ := List.mem_map.1 h1m
  obtain ⟨g2, hg2, rfl⟩ := List.mem_map.1 h2m
  have hb1 : isUp g1 = true := by
    unfold isUp
    simp only [decide_eq_true_eq]
    exact h1up
  have hb2 : isUp g2 = false := by
    unfold isUp
    simp only [decide_eq_false_iff_not]
    exact h2nup
  exact Nat.add_lt_add_right (ranked_index_up_nonup hw hg1 hg2 hb1 hb2) 1

/-- After a re-rank, among non-healthy records the one with the strictly
larger (more recent) `lastChecked` has the strictly better priority. -/
theorem reorder_nonup_nonup_lt {s : HealthTable}
    (hw : (s.map (·.provider)).Nodup) {h1 h2 : ProviderHealth}
    (h1m : h1 ∈ reorderByHealth s) (h2m : h2 ∈ reorderByHealth s)
    (h1nup : h1.status ≠ HealthStatus.up) (h2nup : h2.status ≠ HealthStatus.up)
    (hk : h2.lastChecked < h1.lastChecked) : h1.priority < h2.priority := by
  obtain ⟨g1, hg1, rfl⟩ := List.mem_map.1 h1m
  obtain ⟨g2, hg2, rfl⟩ := List.mem_map.1 h2m
  have hb1 : isUp g1 = false := by
    unfold isUp
    simp only [decide_eq_false_iff_not]
    exact h1nup
  have hb2 : isUp g2 = false := by
    unfold isUp
    simp only [decide_eq_false_iff_not]
    exact h2nup
  exact Nat.add_lt_add_right (ranked_index_nonup_nonup hw hg1 hg2 hb1 hb2 hk) 1

/-- After a re-rank the priorities are exactly `1..N` (as a multiset) over
the `N` records of the table. -/
theorem reorder_priorities_perm {s : HealthTable}
    (hw : (s.map (·.provider)).Nodup) :
    ((reorderByHealth s).map (·.priority)).Perm
      ((List.range s.length).map (· + 1)) := by
  set cp := (rankedList s).map (·.provider) with hcpdef
  have hstep : (reorderByHealth s).map (·.priority) =
      (s.map (·.provider)).map (fun q => cp.indexOf q + 1) := by
    unfold reorderByHealth
    rw [← hcpdef, List.map_map, List.map_map]
    rfl
  rw [hstep]
  have hperm : (s.map (·.provider)).Perm cp :=
    ((rankedList_perm s).map (·.provider)).symm
  refine (hperm.map _).trans ?_
  have hcpnd : cp.Nodup := ranked_providers_nodup hw
  have hself : cp.map (fun q => cp.indexOf q + 1) =
      (List.range cp.length).map (· + 1) := by
    rw [← map_indexOf_self hcpnd]
    conv_rhs => rw [List.map_map]
    rfl
  rw [hself]
  have hlen : cp.length = s.length := by
    rw [hcpdef, List.length_map]
    exact (rankedList_perm s).length_eq
  rw [hlen]

theorem applyResult_length (r : HealthCheckResult) (s : HealthTable) :
    (applyResult r s).length = s.length := List.length_map _ _

/-! ### Claims about the health ranking (C3, C4, C8, C10) -/

/-- C3, counterexample: after recording gemini up with response time 120 and
then openai up with *no* response time, both are healthy, yet openai — the
provider with no recorded `responseTime` — receives priority 1, *before*
gemini's priority 2. The claim required the missing value to be treated as
+infinity and openai to rank after every healthy provider with a recorded
response time; the code's `(a.responseTime || 0)` treats it as 0 instead. -/
theorem c3_counterexample :
    getProviderHealth ProviderType.openai c3Table =
      some { provider := .openai, status := .up, lastChecked := 2,
             responseTime := none, priority := 1 } ∧
    getProviderHealth ProviderType.gemini c3Table =
      some { provider := .gemini, status := .up, lastChecked := 1,
             responseTime := some 120, priority := 2 } := by
  decide

/-- C3, amended: in the re-ranking run on every health update, among
providers with status up, a provider with no recorded `responseTime` is
ranked *before* every healthy provider with a positive recorded
`responseTime`, because the missing value is coerced to 0 by
`(a.responseTime || 0)`. -/
theorem c3_missing_response_time_ranks_first (r : HealthCheckResult)
    (s : HealthTable) (hw : (s.map (·.provider)).Nodup) :
    ∀ h1 ∈ updateHealth r s, ∀ h2 ∈ updateHealth r s,
      h1.status = HealthStatus.up → h2.status = HealthStatus.up →
      h1.responseTime = none → ∀ t, h2.responseTime = some t → 0 < t →
      h1.priority < h2.priority := by
  intro h1 h1m h2 h2m h1up h2up h1rt t h2rt ht
  have hw2 : ((applyResult r s).map (·.provider)).Nodup := by
    rw [applyResult_map_provider]
    exact hw
  apply reorder_up_up_lt hw2 h1m h2m h1up h2up
  unfold rtKey
  rw [h1rt, h2rt]
  exact ht

/-- C3, witness: the amended ordering at the concrete `c3Table` state. -/
theorem c3_witness :
    ((c3Inner.map (·.provider)).Nodup) ∧
    (∀ h1 ∈ c3Table, ∀ h2 ∈ c3Table,
      h1.status = HealthStatus.up → h2.status = HealthStatus.up →
      h1.responseTime = none → ∀ t, h2.responseTime = some t → 0 < t →
      h1.priority < h2.priority) :=
  ⟨by decide,
   c3_missing_response_time_ranks_first ⟨.openai, .up, 2, none, none⟩ c3Inner
     (by decide)⟩

/-- C4, counterexample: after down-observations of openai at time 10 and
claude at time 20, claude — the provider whose `lastChecked` is *more*
recent — receives priority 1, strictly better than openai's priority 2. The
claim required the more recently checked provider to rank worse; the code's
descending sort puts the most recently checked non-healthy provider first. -/
theorem c4_counterexample :
    getProviderHealth ProviderType.claude c4Table =
      some { provider := .claude, status := .down, lastChecked := 20,
             responseTime := none, priority := 1 } ∧
    getProviderHealth ProviderType.openai c4Table =
      some { provider := .openai, status := .down, lastChecked := 10,
             responseTime := none, priority := 2 } := by
  decide

/-- C4, amended: in the re-ranking run on every health update, among the
non-healthy providers (status down or unknown), a provider whose
`lastChecked` timestamp is more recent receives a *better* (lower)
`priorityRank` than one whose `lastChecked` is older — most recently checked
first, so providers that failed longest ago rank worst among non-healthy. -/
theorem c4_recent_failure_ranks_better (r : HealthCheckResult)
    (s : HealthTable) (hw : (s.map (·.provider)).Nodup) :
    ∀ h1 ∈ updateHealth r s, ∀ h2 ∈ updateHealth r s,
      h1.status ≠ HealthStatus.up → h2.status ≠ HealthStatus.up →
      h2.lastChecked < h1.lastChecked →
      h1.priority < h2.priority := by
  intro h1 h1m h2 h2m h1nup h2nup hk
  have hw2 : ((applyResult r s).map (·.provider)).Nodup := by
    rw [applyResult_map_provider]
    exact hw
  exact reorder_nonup_nonup_lt hw2 h1m h2m h1nup h2nup hk

/-- C4, witness: the amended ordering at the concrete `c4Table` state. -/
theorem c4_witness :
    ((c4Inner.map (·.provider)).Nodup) ∧
    (∀ h1 ∈ c4Table, ∀ h2 ∈ c4Table,
      h1.status ≠ HealthStatus.up → h2.status ≠ HealthStatus.up →
      h2.lastChecked < h1.lastChecked →
      h1.priority < h2.priority) :=
  ⟨by decide,
   c4_recent_failure_ranks_better ⟨.claude, .down, 20, none, none⟩ c4Inner
     (by decide)⟩

/-- C8: after every health update, the assigned priorities are exactly
`1..N` over the `N` providers of the registry (as a multiset), and every
provider with status up has a strictly lower (better) priority than every
provider with status down or unknown, regardless of the table's order. -/
theorem c8_priorities_exact_up_first (r : HealthCheckResult) (s : HealthTable)
    (hw : (s.map (·.provider)).Nodup) :
    ((updateHealth r s).map (·.priority)).Perm
      ((List.range s.length).map (· + 1)) ∧
    ∀ h1 ∈ updateHealth r s, ∀ h2 ∈ updateHealth r s,
      h1.status = HealthStatus.up → h2.status ≠ HealthStatus.up →
      h1.priority < h2.priority := by
  have hw2 : ((applyResult r s).map (·.provider)).Nodup := by
    rw [applyResult_map_provider]
    exact hw
  constructor
  · have h := reorder_priorities_perm hw2
    rw [applyResult_length] at h
    exact h
  · intro h1 h1m h2 h2m h1up h2nup
    exact reorder_up_nonup_lt hw2 h1m h2m h1up h2nup

/-- C8, witness: the invariant at a concrete update of the initial table. -/
theorem c8_witness :
    (((initialHealthTable 0).map (·.provider)).Nodup) ∧
    (((updateHealth ⟨.gemini, .up, 1, some 120, none⟩ (initialHealthTable 0)).map
        (·.priority)).Perm
      ((List.range (initialHealthTable 0).length).map (· + 1)) ∧
     ∀ h1 ∈ updateHealth ⟨.gemini, .up, 1, some 120, none⟩ (initialHealthTable 0),
       ∀ h2 ∈ updateHealth ⟨.gemini, .up, 1, some 120, none⟩ (initialHealthTable 0),
         h1.status = HealthStatus.up → h2.status ≠ HealthStatus.up →
         h1.priority < h2.priority) :=
  ⟨by decide,
   c8_priorities_exact_up_first ⟨.gemini, .up, 1, some 120, none⟩
     (initialHealthTable 0) (by decide)⟩

/-- C10: before `destroy()`, after any sequence of health updates applied to
the table built at construction, `getOrderedProviders` returns each of the
four provider types exactly once — the result is a permutation of
`[openai, claude, gemini, azure]` — including provider types never
referenced by any service configuration, because `initializeHealthTable`
seeds all four. -/
theorem c10_all_providers_once (rs : List HealthCheckResult) (t0 : Nat) :
    (getOrderedProviders (applyUpdates rs (initialHealthTable t0))).Perm
      [ProviderType.openai, ProviderType.claude, ProviderType.gemini,
       ProviderType.azure] := by
  have h := getOrderedProviders_perm (applyUpdates rs (initialHealthTable t0))
  rw [applyUpdates_map_provider] at h
  exact h

/-! ### Lemmas about the retry loop (`goAttempts`) -/

theorem goAttempts_cons_ok {T : Type} {opp : Nat → Except String T}
    {p : ProviderType} {maxR d n : Nat} {rest : List Nat} {v : T}
    (hop : opp n = .ok v) :
    goAttempts opp p maxR d (n :: rest) = (some v, [⟨p, n, none⟩], []) := by
  simp [goAttempts, hop]

theorem goAttempts_cons_err {T : Type} {opp : Nat → Except String T}
    {p : ProviderType} {maxR d n : Nat} {rest : List Nat} {msg : String}
    (hop : opp n = .error msg) :
    goAttempts opp p maxR d (n :: rest) =
      ((goAttempts opp p maxR d rest).1,
       ⟨p, n, some msg⟩ :: (goAttempts opp p maxR d rest).2.1,
       (if n < maxR then [(p, d)] else []) ++ (goAttempts opp p maxR d rest).2.2) := by
  simp [goAttempts, hop]

theorem goAttempts_attempts_provider {T : Type} (opp : Nat → Except String T)
    (p : ProviderType) (maxR d : Nat) (ns : List Nat) :
    ∀ a ∈ (goAttempts opp p maxR d ns).2.1, a.provider = p ∧ a.attemptNo ∈ ns := by
  induction ns with
  | nil => intro a ha; simp [goAttempts] at ha
  | cons n rest ih =>
    intro a ha
    cases hop : opp n with
    | ok v =>
      simp [goAttempts, hop] at ha
      rw [ha]
      exact ⟨rfl, List.mem_cons_self n rest⟩
    | error msg =>
      simp only [goAttempts, hop] at ha
      rcases List.mem_cons.1 ha with ha1 | ha1
      · rw [ha1]
        exact ⟨rfl, List.mem_cons_self n rest⟩
      · rcases ih a ha1 with ⟨hpa, hna⟩
        exact ⟨hpa, List.mem_cons_of_mem n hna⟩

theorem goAttempts_delays_eq {T : Type} (opp : Nat → Except String T)
    (p : ProviderType) (maxR d : Nat) (ns : List Nat) :
    ∀ d2 ∈ (goAttempts opp p maxR d ns).2.2, d2 = (p, d) := by
  induction ns with
  | nil => intro d2 hd; simp [goAttempts] at hd
  | cons n rest ih =>
    intro d2 hd
    cases hop : opp n with
    | ok v => simp [goAttempts, hop] at hd
    | error msg =>
      simp only [goAttempts, hop] at hd
      rcases List.mem_append.1 hd with hd1 | hd1
      · by_cases hlt : n < maxR
        · simp [hlt] at hd1
          exact hd1
        · simp [hlt] at hd1
      · exact ih d2 hd1

theorem goAttempts_len_le {T : Type} (opp : Nat → Except String T)
    (p : ProviderType) (maxR d : Nat) (ns : List Nat) :
    (goAttempts opp p maxR d ns).2.1.length ≤ ns.length := by
  induction ns with
  | nil => simp [goAttempts]
  | cons n rest ih =>
    cases hop : opp n with
    | ok v => simp [goAttempts, hop]
    | error msg =>
      simp only [goAttempts, hop, List.length_cons]
      exact Nat.succ_le_succ ih

theorem goAttempts_none_of_all_err {T : Type} (opp : Nat → Except String T)
    (p : ProviderType) (maxR d : Nat) (ns : List Nat)
    (h : ∀ n ∈ ns, isErr (opp n) = true) :
    (goAttempts opp p maxR d ns).1 = none := by
  induction ns with
  | nil => simp [goAttempts]
  | cons n rest ih =>
    cases hop : opp n with
    | ok v =>
      have := h n (List.mem_cons_self n rest)
      rw [hop] at this
      simp [isErr] at this
    | error msg =>
      simp only [goAttempts, hop]
      exact ih fun x hx => h x (List.mem_cons_of_mem n hx)

/-- Over the attempt numbers `k .. maxR` the loop performs one fewer delay
than attempts, and at least one attempt when the range is non-empty. -/
theorem goAttempts_counts {T : Type} (opp : Nat → Except String T)
    (p : ProviderType) (maxR d : Nat) :
    ∀ m k, k + m = maxR + 1 →
      (0 < m → 0 < (goAttempts opp p maxR d (List.range' k m)).2.1.length) ∧
      (goAttempts opp p maxR d (List.range' k m)).2.2.length =
        (goAttempts opp p maxR d (List.range' k m)).2.1.length - 1 := by
  intro m
  induction m with
  | zero => intro k hk; simp [goAttempts]
  | succ m2 ih =>
    intro k hk
    rw [List.range'_succ]
    cases hop : opp k with
    | ok v => rw [goAttempts_cons_ok hop]; simp
    | error msg =>
      have hk2 : (k + 1) + m2 = maxR + 1 := by omega
      rcases ih (k + 1) hk2 with ⟨ihpos, ihlen⟩
      rw [goAttempts_cons_err hop]
      constructor
      · intro
        simp
      · by_cases hg : k < maxR
        · have hm2pos : 0 < m2 := by omega
          have hpos := ihpos hm2pos
          simp only [if_pos hg, List.length_append, List.length_cons,
            List.length_nil]
          omega
        · have hm2z : m2 = 0 := by omega
          subst hm2z
          simp [goAttempts, if_neg hg]

/-! ### Lemmas about the candidate loop (`goCandidates`) -/

theorem goCandidates_cons_skip {T : Type} {provs : List ProviderType}
    {st : ServiceType} {op : ProviderType → Nat → Except String T}
    {maxR d now : Nat} {lastErr : Option String} {health : HealthTable}
    {p : ProviderType} {rest : List ProviderType}
    (hskip : skipCandidate provs st p = true) :
    goCandidates provs st op maxR d now lastErr health (p :: rest) =
      goCandidates provs st op maxR d now lastErr health rest := by
  simp [goCandidates, hskip]

theorem goCandidates_cons_ok {T : Type} {provs : List ProviderType}
    {st : ServiceType} {op : ProviderType → Nat → Except String T}
    {maxR d now : Nat} {lastErr : Option String} {health : HealthTable}
    {p : ProviderType} {rest : List ProviderType} {v : T}
    (hskip : skipCandidate provs st p = false)
    (hok : (goAttempts (op p) p maxR d (List.range' 1 maxR)).1 = some v) :
    goCandidates provs st op maxR d now lastErr health (p :: rest) =
      ⟨.ok v, (goAttempts (op p) p maxR d (List.range' 1 maxR)).2.1,
       (goAttempts (op p) p maxR d (List.range' 1 maxR)).2.2, health⟩ := by
  simp [goCandidates, hskip, hok]

theorem goCandidates_cons_exhaust {T : Type} {provs : List ProviderType}
    {st : ServiceType} {op : ProviderType → Nat → Except String T}
    {maxR d now : Nat} {lastErr : Option String} {health : HealthTable}
    {p : ProviderType} {rest : List ProviderType}
    (hskip : skipCandidate provs st p = false)
    (hnone : (goAttempts (op p) p maxR d (List.range' 1 maxR)).1 = none) :
    goCandidates provs st op maxR d now lastErr health (p :: rest) =
      (let t := goAttempts (op p) p maxR d (List.range' 1 maxR)
       let lastErr2 := lastErrUpd t.2.1 lastErr
       let health2 := updateHealth ⟨p, .down, now, none, lastErr2⟩ health
       let o := goCandidates provs st op maxR d now lastErr2 health2 rest
       ⟨o.result, t.2.1 ++ o.attempts, t.2.2 ++ o.delays, o.finalHealth⟩) := by
  simp [goCandidates, hskip, hnone]

theorem goCandidates_attempts_mem {T : Type} (provs : List ProviderType)
    (st : ServiceType) (op : ProviderType → Nat → Except String T)
    (maxR d now : Nat) :
    ∀ cands lastErr health,
      ∀ a ∈ (goCandidates provs st op maxR d now lastErr health cands).attempts,
        a.provider ∈ cands := by
  intro cands
  induction cands with
  | nil => intro lastErr health a ha; simp [goCandidates] at ha
  | cons p rest ih =>
    intro lastErr health a ha
    by_cases hskip : skipCandidate provs st p = true
    · rw [goCandidates_cons_skip hskip] at ha
      exact List.mem_cons_of_mem p (ih lastErr health a ha)
    · have hskip2 : skipCandidate provs st p = false :=
        Bool.eq_false_iff.2 hskip
      cases hres : (goAttempts (op p) p maxR d (List.range' 1 maxR)).1 with
      | some v =>
        rw [goCandidates_cons_ok hskip2 hres] at ha
        have := goAttempts_attempts_provider (op p) p maxR d (List.range' 1 maxR) a ha
        rw [← this.1]
        exact List.mem_cons_self _ _
      | none =>
        rw [goCandidates_cons_exhaust hskip2 hres] at ha
        simp only at ha
        rcases List.mem_append.1 ha with ha1 | ha1
        · have := goAttempts_attempts_provider (op p) p maxR d (List.range' 1 maxR) a ha1
          rw [← this.1]
          exact List.mem_cons_self _ _
        · exact List.mem_cons_of_mem p (ih _ _ a ha1)

theorem goCandidates_delays_mem {T : Type} (provs : List ProviderType)
    (st : ServiceType) (op : ProviderType → Nat → Except String T)
    (maxR d now : Nat) :
    ∀ cands lastErr health,
      ∀ d2 ∈ (goCandidates provs st op maxR d now lastErr health cands).delays,
        d2.1 ∈ cands ∧ d2.2 = d := by
  intro cands
  induction cands with
  | nil => intro lastErr health d2 hd; simp [goCandidates] at hd
  | cons p rest ih =>
    intro lastErr health d2 hd
    by_cases hskip : skipCandidate provs st p = true
    · rw [goCandidates_cons_skip hskip] at hd
      rcases ih lastErr health d2 hd with ⟨h1, h2⟩
      exact ⟨List.mem_cons_of_mem p h1, h2⟩
    · have hskip2 : skipCandidate provs st p = false :=
        Bool.eq_false_iff.2 hskip
      cases hres : (goAttempts (op p) p maxR d (List.range' 1 maxR)).1 with
      | some v =>
        rw [goCandidates_cons_ok hskip2 hres] at hd
        have := goAttempts_delays_eq (op p) p maxR d (List.range' 1 maxR) d2 hd
        rw [this]
        exact ⟨List.mem_cons_self _ _, rfl⟩
      | none =>
        rw [goCandidates_cons_exhaust hskip2 hres] at hd
        simp only at hd
        rcases List.mem_append.1 hd with hd1 | hd1
        · have := goAttempts_delays_eq (op p) p maxR d (List.range' 1 maxR) d2 hd1
          rw [this]
          exact ⟨List.mem_cons_self _ _, rfl⟩
        · rcases ih _ _ d2 hd1 with ⟨h1, h2⟩
          exact ⟨List.mem_cons_of_mem p h1, h2⟩

/-- The terminal error of the candidate loop is exactly the value of the
`lastError` variable folded over all recorded attempts — the raw last
per-attempt error, or the generic all-providers-failed error when no attempt
ever set it. -/
theorem goCandidates_error_eq {T : Type} (provs : List ProviderType)
    (st : ServiceType) (op : ProviderType → Nat → Except String T)
    (maxR d now : Nat) :
    ∀ cands lastErr health e,
      (goCandidates provs st op maxR d now lastErr health cands).result = .error e →
      e = toExecErr (lastErrUpd
        (goCandidates provs st op maxR d now lastErr health cands).attempts lastErr) := by
  intro cands
  induction cands with
  | nil =>
    intro lastErr health e he
    simp [goCandidates] at he
    rw [← he]
    rfl
  | cons p rest ih =>
    intro lastErr health e he
    by_cases hskip : skipCandidate provs st p = true
    · rw [goCandidates_cons_skip hskip] at he ⊢
      exact ih lastErr health e he
    · have hskip2 : skipCandidate provs st p = false :=
        Bool.eq_false_iff.2 hskip
      cases hres : (goAttempts (op p) p maxR d (List.range' 1 maxR)).1 with
      | some v =>
        rw [goCandidates_cons_ok hskip2 hres] at he
        simp at he
      | none =>
        rw [goCandidates_cons_exhaust hskip2 hres] at he ⊢
        simp only at he ⊢
        have := ih _ _ e he
        rw [this]
        unfold lastErrUpd
        rw [List.foldl_append]

/-- Per-candidate counting: within one call, the attempts against any fixed
provider `p` number at most `maxR`, and the delays attributed to `p` number
exactly one fewer than the attempts against `p`. -/
theorem goCandidates_filter_counts {T : Type} (provs : List ProviderType)
    (st : ServiceType) (op : ProviderType → Nat → Except String T)
    (maxR d now : Nat) (p : ProviderType) :
    ∀ cands lastErr health, cands.Nodup →
      (((goCandidates provs st op maxR d now lastErr health cands).attempts.filter
          (fun a => decide (a.provider = p))).length ≤ maxR) ∧
      (((goCandidates provs st op maxR d now lastErr health cands).delays.filter
          (fun d2 => decide (d2.1 = p))).length =
        ((goCandidates provs st op maxR d now lastErr health cands).attempts.filter
          (fun a => decide (a.provider = p))).length - 1) := by
  intro cands
  induction cands with
  | nil =>
    intro lastErr health _
    simp [goCandidates]
  | cons q rest ih =>
    intro lastErr health hnd
    rcases List.nodup_cons.1 hnd with ⟨hqrest, hndrest⟩
    by_cases hskip : skipCandidate provs st q = true
    · rw [goCandidates_cons_skip hskip]
      exact ih lastErr health hndrest
    · have hskip2 : skipCandidate provs st q = false :=
        Bool.eq_false_iff.2 hskip
      have hattp := goAttempts_attempts_provider (op q) q maxR d (List.range' 1 maxR)
      have hdel := goAttempts_delays_eq (op q) q maxR d (List.range' 1 maxR)
      have hlen : (goAttempts (op q) q maxR d (List.range' 1 maxR)).2.1.length ≤ maxR := by
        have := goAttempts_len_le (op q) q maxR d (List.range' 1 maxR)
        rwa [List.length_range'] at this
      have hcounts := goAttempts_counts (op q) q maxR d maxR 1 (by omega)
      cases hres : (goAttempts (op q) q maxR d (List.range' 1 maxR)).1 with
      | some v =>
        rw [goCandidates_cons_ok hskip2 hres]
        by_cases hqp : q = p
        · subst hqp
          have hfa : ((goAttempts (op q) q maxR d (List.range' 1 maxR)).2.1.filter
              (fun a => decide (a.provider = q))) =
              (goAttempts (op q) q maxR d (List.range' 1 maxR)).2.1 :=
            List.filter_eq_self.2 fun a ha => by
              simp [(hattp a ha).1]
          have hfd : ((goAttempts (op q) q maxR d (List.range' 1 maxR)).2.2.filter
              (fun d2 => decide (d2.1 = q))) =
              (goAttempts (op q) q maxR d (List.range' 1 maxR)).2.2 :=
            List.filter_eq_self.2 fun d2 hd2 => by
              simp [hdel d2 hd2]
          rw [hfa, hfd]
          exact ⟨hlen, hcounts.2⟩
        · have hfa : ((goAttempts (op q) q maxR d (List.range' 1 maxR)).2.1.filter
              (fun a => decide (a.provider = p))) = [] :=
            List.filter_eq_nil_iff.2 fun a ha => by
              simp [(hattp a ha).1, hqp]
          have hfd : ((goAttempts (op q) q maxR d (List.range' 1 maxR)).2.2.filter
              (fun d2 => decide (d2.1 = p))) = [] :=
            List.filter_eq_nil_iff.2 fun d2 hd2 => by
              simp [hdel d2 hd2, hqp]
          rw [hfa, hfd]
          simp
      | none =>
        rw [goCandidates_cons_exhaust hskip2 hres]
        simp only [List.filter_append, List.length_append]
        set le2 := lastErrUpd ((goAttempts (op q) q maxR d
          (List.range' 1 maxR)).2.1) lastErr with hle2
        set h2 := updateHealth ⟨q, .down, now, none, le2⟩ health with hh2
        have hrest := ih le2 h2 hndrest
        by_cases hqp : q = p
        · subst hqp
          have hfa : ((goAttempts (op q) q maxR d (List.range' 1 maxR)).2.1.filter
              (fun a => decide (a.provider = q))) =
              (goAttempts (op q) q maxR d (List.range' 1 maxR)).2.1 :=
            List.filter_eq_self.2 fun a ha => by
              simp [(hattp a ha).1]
          have hfd : ((goAttempts (op q) q maxR d (List.range' 1 maxR)).2.2.filter
              (fun d2 => decide (d2.1 = q))) =
              (goAttempts (op q) q maxR d (List.range' 1 maxR)).2.2 :=
            List.filter_eq_self.2 fun d2 hd2 => by
              simp [hdel d2 hd2]
          have hrfa : ((goCandidates provs st op maxR d now le2 h2 rest).attempts.filter
              (fun a => decide (a.provider = q))) = [] :=
            List.filter_eq_nil_iff.2 fun a ha => by
              have := goCandidates_attempts_mem provs st op maxR d now rest le2 h2 a ha
              simp only [decide_eq_true_eq]
              intro hh
              rw [hh] at this
              exact hqrest this
          have hrfd : ((goCandidates provs st op maxR d now le2 h2 rest).delays.filter
              (fun d2 => decide (d2.1 = q))) = [] :=
            List.filter_eq_nil_iff.2 fun d2 hd2 => by
              have := (goCandidates_delays_mem provs st op maxR d now rest le2 h2 d2 hd2).1
              simp only [decide_eq_true_eq]
              intro hh
              rw [hh] at this
              exact hqrest this
          rw [hfa, hfd, hrfa, hrfd]
          simp only [List.length_nil, Nat.add_zero]
          exact ⟨hlen, hcounts.2⟩
        · have hfa : ((goAttempts (op q) q maxR d (List.range' 1 maxR)).2.1.filter
              (fun a => decide (a.provider = p))) = [] :=
            List.filter_eq_nil_iff.2 fun a ha => by
              simp [(hattp a ha).1, hqp]
          have hfd : ((goAttempts (op q) q maxR d (List.range' 1 maxR)).2.2.filter
              (fun d2 => decide (d2.1 = p))) = [] :=
            List.filter_eq_nil_iff.2 fun d2 hd2 => by
              simp [hdel d2 hd2, hqp]
          rw [hfa, hfd]
          simp only [List.length_nil, Nat.zero_add]
          exact hrest

/-! ### Lemmas about the candidate list -/

theorem dedupFoldl_nodup :
    ∀ (l : List (ProviderType × String)) (acc : List ProviderType), acc.Nodup →
      (l.foldl (fun acc kv => if acc.contains kv.1 then acc else acc ++ [kv.1])
        acc).Nodup := by
  intro l
  induction l with
  | nil => intro acc h; exact h
  | cons kv rest ih =>
    intro acc h
    simp only [List.foldl_cons]
    by_cases hc : acc.contains kv.1 = true
    · rw [if_pos hc]
      exact ih acc h
    · have hnm : kv.1 ∉ acc := fun hm => hc (List.elem_iff.mpr hm)
      rw [if_neg (by rw [Bool.eq_false_iff.2 hc]; exact Bool.false_ne_true)]
      apply ih
      exact List.nodup_append.2 ⟨h, List.nodup_singleton _,
        fun a ha hb => hnm (by rwa [List.mem_singleton.1 hb] at ha)⟩

theorem providerPriority_nodup (cfg : ProviderConfig) :
    (providerPriority cfg).Nodup := by
  unfold providerPriority
  exact dedupFoldl_nodup cfg.other_models [defaultProviderOf cfg]
    (List.nodup_singleton _)

theorem sortedCandidates_nodup (cfg : ProviderConfig)
    (provs ordered : List ProviderType) :
    (sortedCandidates cfg provs ordered).Nodup :=
  ((List.perm_insertionSort (candLe ordered) _).symm).nodup
    (List.Nodup.filter _ (providerPriority_nodup cfg))

theorem sortedCandidates_contains {cfg : ProviderConfig}
    {provs ordered : List ProviderType} {p : ProviderType}
    (hp : p ∈ sortedCandidates cfg provs ordered) : provs.contains p = true :=
  (List.mem_filter.1
    ((List.perm_insertionSort (candLe ordered) _).mem_iff.1 hp)).2

/-- No `continue` guard ever fires for an instantiated provider: all four
provider classes expose both `tts` and `stt` members, so the capability
checks are vacuous. -/
theorem skipCandidate_false {provs : List ProviderType} {st : ServiceType}
    {p : ProviderType} (hc : provs.contains p = true) :
    skipCandidate provs st p = false := by
  cases st <;> cases p <;>
      simp [skipCandidate, hc, hasTtsMember, hasSttMember] <;>
    exact List.elem_iff.1 hc

theorem effRetries_pos (cfg : ProviderConfig) : 0 < effRetries cfg := by
  unfold effRetries
  by_cases h : cfg.retry = 0
  · rw [if_pos h]; omega
  · rw [if_neg h]; omega

theorem executeWithRetry_eq_go {T : Type} (m : ManagerState) (key : String)
    (st : ServiceType) (op : ProviderType → Nat → Except String T) (now : Nat)
    (cfg : ProviderConfig) (hc : lookupConfig key m.config = some cfg) :
    executeWithRetry m key st op now =
      goCandidates m.providers st op (effRetries cfg) (effDelay cfg) now none
        m.health (sortedCandidates cfg m.providers (getOrderedProviders m.health)) := by
  unfold executeWithRetry
  rw [hc]

/-! ### Claims about the executor (C1, C2, C5, C6, C7, C9) -/

/-- C9: an execute call whose service key has no configuration entry fails
immediately with the configuration error (`Service configuration not found
for: ...`) before any provider operation is invoked: no candidate is
attempted, no retry delay is performed, and the health table is unchanged. -/
theorem c9_unknown_service_fails_fast {T : Type} (m : ManagerState)
    (serviceKey : String) (st : ServiceType)
    (op : ProviderType → Nat → Except String T) (now : Nat)
    (habs : lookupConfig serviceKey m.config = none) :
    executeWithRetry m serviceKey st op now =
      ⟨.error (.serviceConfigNotFound serviceKey), [], [], m.health⟩ := by
  unfold executeWithRetry
  rw [habs]

/-- C9, witness: an unknown key on the concrete chat manager. -/
theorem c9_witness :
    (lookupConfig "unknown_service" chatManager.config = none) ∧
    executeWithRetry chatManager "unknown_service" ServiceType.text chatOp 0 =
      ⟨.error (.serviceConfigNotFound "unknown_service"), [], [],
       chatManager.health⟩ :=
  ⟨by decide,
   c9_unknown_service_fails_fast chatManager "unknown_service" .text chatOp 0
     (by decide)⟩

/-- C5, counterexample: an execute call started after `destroy()` on a known
service key attempts no candidate, but the error it fails with is the
generic `Error('All providers failed')` shared with ordinary exhaustion —
the code has no dedicated "manager destroyed" error at all (`ExecError`
enumerates every error `executeWithRetry` can throw, and none is
destruction-specific). -/
theorem c5_counterexample :
    destroyedOutcome.result = .error .allProvidersFailed ∧
    destroyedOutcome.attempts = [] ∧ destroyedOutcome.delays = [] := by
  decide

/-- C5, amended: every execute call started after `destroy()` whose service
key has a configuration entry attempts no candidate and fails with the
generic all-providers-failed error (not a dedicated manager-destroyed
error); the configuration lookup still succeeds because `destroy()` clears
only the provider map and the health table. -/
theorem c5_destroyed_fails_without_attempts {T : Type} (m : ManagerState)
    (serviceKey : String) (st : ServiceType)
    (op : ProviderType → Nat → Except String T) (now : Nat)
    (cfg : ProviderConfig) (hc : lookupConfig serviceKey m.config = some cfg) :
    executeWithRetry (destroyManager m) serviceKey st op now =
      ⟨.error .allProvidersFailed, [], [], []⟩ := by
  have h1 := executeWithRetry_eq_go (destroyManager m) serviceKey st op now cfg hc
  rw [h1]
  have hfilter : (providerPriority cfg).filter
      (fun p => List.contains ([] : List ProviderType) p) = [] :=
    List.filter_eq_nil_iff.2 fun a _ hcontr =>
      List.not_mem_nil a (List.elem_iff.1 hcontr)
  have hsorted : sortedCandidates cfg (destroyManager m).providers
      (getOrderedProviders (destroyManager m).health) = [] := by
    unfold sortedCandidates
    rw [show (destroyManager m).providers = [] from rfl, hfilter]
    rfl
  rw [hsorted]
  rfl

/-- C5, witness: the amended behaviour on the destroyed concrete manager. -/
theorem c5_witness :
    (lookupConfig "chat" zeroRetryManager.config = some zeroRetryCfg) ∧
    executeWithRetry (destroyManager zeroRetryManager) "chat" ServiceType.text
      (fun _ _ => (Except.ok "hi" : Except String String)) 3 =
      ⟨.error .allProvidersFailed, [], [], []⟩ :=
  ⟨by decide,
   c5_destroyed_fails_without_attempts zeroRetryManager "chat" .text
     (fun _ _ => .ok "hi") 3 zeroRetryCfg (by decide)⟩

/-- C1, counterexample: with a single candidate whose every attempt throws
`Error('boom')`, the call fails with exactly that raw per-attempt error —
surfaced directly to the caller — and not with an aggregate
AllProvidersExhausted carrying the attempted-candidate list (no such
aggregate exists anywhere in `executeWithRetry`; line 220 rethrows
`lastError`). -/
theorem c1_counterexample :
    zeroRetryOutcome.result = .error (.opError "boom") ∧
    (∀ a ∈ zeroRetryOutcome.attempts, a.err = some "boom") ∧
    zeroRetryOutcome.attempts ≠ [] := by
  decide

/-- C1, amended: when an execute call on a known service key fails, the
thrown error is the final value of `lastError` — the error of the
chronologically last failed attempt, surfaced directly — or the generic
`Error('All providers failed')` when no attempt ever recorded an error;
no aggregate error carrying the attempted-candidate list exists. -/
theorem c1_last_error_rethrown {T : Type} (m : ManagerState) (key : String)
    (st : ServiceType) (op : ProviderType → Nat → Except String T) (now : Nat)
    (cfg : ProviderConfig) (e : ExecError)
    (hc : lookupConfig key m.config = some cfg)
    (he : (executeWithRetry m key st op now).result = .error e) :
    e = toExecErr (lastErrUpd (executeWithRetry m key st op now).attempts none) := by
  have h1 := executeWithRetry_eq_go m key st op now cfg hc
  rw [h1] at he ⊢
  exact goCandidates_error_eq _ _ _ _ _ _ _ _ _ _ he

/-- C1, witness: the rethrown error at the concrete failing scenario. -/
theorem c1_witness :
    (lookupConfig "chat" zeroRetryManager.config = some zeroRetryCfg) ∧
    (zeroRetryOutcome.result = .error (.opError "boom")) ∧
    ExecError.opError "boom" =
      toExecErr (lastErrUpd zeroRetryOutcome.attempts none) :=
  ⟨by decide, by decide,
   c1_last_error_rethrown zeroRetryManager "chat" .text
     (fun _ _ => .error "boom") 3 zeroRetryCfg (.opError "boom")
     (by decide) (by decide)⟩

/-- C6: for an execute call whose effective candidate order is `[A, B, C]`,
if every attempt against `A` fails and `B`'s operation succeeds on its first
attempt, the call returns exactly `B`'s output and the operation is never
invoked against `C`: success short-circuits all remaining attempts and
candidates. -/
theorem c6_short_circuit {T : Type} (m : ManagerState) (key : String)
    (st : ServiceType) (op : ProviderType → Nat → Except String T) (now : Nat)
    (cfg : ProviderConfig) (A B C : ProviderType) (v : T)
    (hc : lookupConfig key m.config = some cfg)
    (hs : sortedCandidates cfg m.providers (getOrderedProviders m.health) =
      [A, B, C])
    (hA : ∀ n ∈ List.range' 1 (effRetries cfg), isErr (op A n) = true)
    (hB : op B 1 = .ok v) :
    (executeWithRetry m key st op now).result = .ok v ∧
    ∀ a ∈ (executeWithRetry m key st op now).attempts, a.provider ≠ C := by
  have h1 := executeWithRetry_eq_go m key st op now cfg hc
  rw [h1, hs]
  have hnd := sortedCandidates_nodup cfg m.providers (getOrderedProviders m.health)
  rw [hs] at hnd
  have hAC : A ≠ C := by
    intro hh
    rw [hh] at hnd
    simp at hnd
  have hBC : B ≠ C := by
    intro hh
    rw [hh] at hnd
    simp at hnd
  have hcA : m.providers.contains A = true := by
    apply @sortedCandidates_contains cfg m.providers
      (getOrderedProviders m.health) A
    rw [hs]
    exact List.mem_cons_self _ _
  have hcB : m.providers.contains B = true := by
    apply @sortedCandidates_contains cfg m.providers
      (getOrderedProviders m.health) B
    rw [hs]
    exact List.mem_cons_of_mem _ (List.mem_cons_self _ _)
  have hskipA := @skipCandidate_false m.providers st A hcA
  have hskipB := @skipCandidate_false m.providers st B hcB
  have hnoneA : (goAttempts (op A) A (effRetries cfg) (effDelay cfg)
      (List.range' 1 (effRetries cfg))).1 = none :=
    goAttempts_none_of_all_err _ _ _ _ _ hA
  obtain ⟨m2, hm2⟩ : ∃ m2, effRetries cfg = m2 + 1 :=
    ⟨effRetries cfg - 1, by have := effRetries_pos cfg; omega⟩
  have hgoB : goAttempts (op B) B (effRetries cfg) (effDelay cfg)
      (List.range' 1 (effRetries cfg)) =
      (some v, [⟨B, 1, none⟩], []) := by
    rw [hm2, List.range'_succ]
    exact goAttempts_cons_ok hB
  have hokB : (goAttempts (op B) B (effRetries cfg) (effDelay cfg)
      (List.range' 1 (effRetries cfg))).1 = some v := by
    rw [hgoB]
  rw [goCandidates_cons_exhaust hskipA hnoneA]
  simp only
  rw [goCandidates_cons_ok hskipB hokB]
  refine ⟨rfl, ?_⟩
  intro a ha
  simp only at ha
  rcases List.mem_append.1 ha with ha1 | ha1
  · have := (goAttempts_attempts_provider (op A) A (effRetries cfg)
      (effDelay cfg) (List.range' 1 (effRetries cfg)) a ha1).1
    rw [this]
    exact hAC
  · rw [hgoB] at ha1
    simp only at ha1
    rw [List.mem_singleton.1 ha1]
    exact hBC

/-- C6, witness: the chat scenario where openai exhausts both attempts,
claude succeeds at once, and gemini is never invoked. -/
theorem c6_witness :
    (lookupConfig "chat" chatManager.config = some chatCfg) ∧
    (sortedCandidates chatCfg chatManager.providers
      (getOrderedProviders chatManager.health) =
      [ProviderType.openai, ProviderType.claude, ProviderType.gemini]) ∧
    ((executeWithRetry chatManager "chat" ServiceType.text chatOp 4).result =
      .ok "OUT" ∧
     ∀ a ∈ (executeWithRetry chatManager "chat" ServiceType.text chatOp 4).attempts,
       a.provider ≠ ProviderType.gemini) :=
  ⟨by decide, by decide,
   c6_short_circuit chatManager "chat" .text chatOp 4 chatCfg
     .openai .claude .gemini "OUT" (by decide) (by decide) (by decide) rfl⟩

/-- C7, counterexample: the claim bounds the attempts per candidate by the
service's *configured* `maxRetries`, but with `retry: 0` — a falsy value —
the code substitutes the default 3 (`serviceConfig.retry || 3`, line 127)
and invokes the operation three times against the sole candidate. -/
theorem c7_counterexample :
    zeroRetryCfg.retry = 0 ∧
    (zeroRetryOutcome.attempts.filter
      (fun a => decide (a.provider = ProviderType.openai))).length = 3 := by
  decide

/-- C7, amended: within one execute call the operation is invoked against
any single candidate at most `effRetries` times, where `effRetries` is the
configured `retry` when non-zero and 3 otherwise; the delays attributed to a
candidate number exactly one fewer than its attempts — i.e. a wait occurs
between consecutive attempts on the same candidate exactly when further
attempts remain — and every wait is the effective `retry_delay` (the
configured value when non-zero, 1000 otherwise). -/
theorem c7_attempt_bound {T : Type} (m : ManagerState) (key : String)
    (st : ServiceType) (op : ProviderType → Nat → Except String T) (now : Nat)
    (cfg : ProviderConfig) (p : ProviderType)
    (hc : lookupConfig key m.config = some cfg) :
    ((executeWithRetry m key st op now).attempts.filter
      (fun a => decide (a.provider = p))).length ≤ effRetries cfg ∧
    ((executeWithRetry m key st op now).delays.filter
      (fun d2 => decide (d2.1 = p))).length =
      ((executeWithRetry m key st op now).attempts.filter
        (fun a => decide (a.provider = p))).length - 1 ∧
    ∀ d2 ∈ (executeWithRetry m key st op now).delays, d2.2 = effDelay cfg := by
  have h1 := executeWithRetry_eq_go m key st op now cfg hc
  rw [h1]
  have hnd := sortedCandidates_nodup cfg m.providers (getOrderedProviders m.health)
  have hfc := goCandidates_filter_counts m.providers st op (effRetries cfg)
    (effDelay cfg) now p
    (sortedCandidates cfg m.providers (getOrderedProviders m.health))
    none m.health hnd
  exact ⟨hfc.1, hfc.2, fun d2 hd2 =>
    (goCandidates_delays_mem m.providers st op (effRetries cfg) (effDelay cfg)
      now _ none m.health d2 hd2).2⟩

/-- C7, witness: the per-candidate bound and delay pairing at the concrete
chat scenario (openai: 2 attempts, 1 delay of 3 ms). -/
theorem c7_witness :
    (lookupConfig "chat" chatManager.config = some chatCfg) ∧
    (((executeWithRetry chatManager "chat" ServiceType.text chatOp 4).attempts.filter
        (fun a => decide (a.provider = ProviderType.openai))).length ≤
      effRetries chatCfg ∧
     ((executeWithRetry chatManager "chat" ServiceType.text chatOp 4).delays.filter
        (fun d2 => decide (d2.1 = ProviderType.openai))).length =
      ((executeWithRetry chatManager "chat" ServiceType.text chatOp 4).attempts.filter
        (fun a => decide (a.provider = ProviderType.openai))).length - 1 ∧
     ∀ d2 ∈ (executeWithRetry chatManager "chat" ServiceType.text chatOp 4).delays,
       d2.2 = effDelay chatCfg) :=
  ⟨by decide,
   c7_attempt_bound chatManager "chat" .text chatOp 4 chatCfg .openai (by decide)⟩

/-- C2, evaluation at the failing input: service `tts_service` has primary
claude (detected from the default model) and fallback openai, claude ranked
first by health. The claim says claude — which lacks speech-synthesis
capability — is silently skipped, not counted as a failed attempt, not
marked down, and openai is tried first. The code instead *attempts* claude
twice (its inherited `AbstractProvider.tts` throws
`TTS not implemented for claude` each time), marks claude down in the
health registry, and only then tries openai: the `!provider.tts` skip check
of `executeWithRetry` never fires because `AbstractProvider` defines a
concrete throwing `tts` for every provider class. -/
theorem c2_claude_tts_attempted :
    ttsOutcome.result = .ok "AUDIO" ∧
    ttsOutcome.attempts.map (fun a => (a.provider, a.attemptNo, a.err)) =
      [(.claude, 1, some "TTS not implemented for claude"),
       (.claude, 2, some "TTS not implemented for claude"),
       (.openai, 1, none)] ∧
    (getProviderHealth .claude ttsOutcome.finalHealth).map (·.status) =
      some HealthStatus.down := by
  decide

end LlmMgr
